import Mathlib

/-!
Shallow embedding of pdf_transaction_parser.py: the tokenizer
(extract_transaction_data with its helpers is_numeric, clean_amount, is_date),
the per-line parsing loop of parse_pdf, and validate_transactions.
Strings are Lean String; Python decimal.Decimal is modelled by PyDec below
(finite values, infinities and NaNs, default-context subtraction with
precision 28 and half-even rounding, and the to-scientific-string str()).
Operations that raise a caught exception are modelled with Option, none
standing for the raising executions that the source catches and skips.
-/

/-- Whitespace characters recognized by Python str.split and str.strip (ASCII range). -/
def pyIsSpace (c : Char) : Bool :=
  c == ' ' || c == '\t' || c == '\n' || c == '\r' || c == '\x0b' || c == '\x0c'

/-- Remove leading and trailing whitespace from a character list (Python str.strip). -/
def stripList (l : List Char) : List Char :=
  ((l.dropWhile pyIsSpace).reverse.dropWhile pyIsSpace).reverse

/-- Python str.strip on strings. -/
def pyStrip (s : String) : String := String.mk (stripList s.data)

/-- Helper for pySplit: accumulates the current token in reverse while scanning. -/
def pySplitGo : List Char → List Char → List String
  | [], cur => if cur.isEmpty then [] else [String.mk cur.reverse]
  | c :: cs, cur =>
    if pyIsSpace c then
      if cur.isEmpty then pySplitGo cs [] else String.mk cur.reverse :: pySplitGo cs []
    else pySplitGo cs (c :: cur)

/-- Python str.split with no argument: split on runs of whitespace, dropping empty pieces. -/
def pySplit (s : String) : List String := pySplitGo s.data []

/-- Lowercase an ASCII letter. -/
def lowerChar (c : Char) : Char :=
  if 'A' ≤ c ∧ c ≤ 'Z' then Char.ofNat (c.toNat + 32) else c

/-- The apostrophe character. -/
def aposChar : Char := Char.ofNat 39

/-- Numeric value of a decimal digit character. -/
def digitVal (c : Char) : Nat := c.toNat - 48

/-- Natural number denoted by a list of decimal digit characters. -/
def natOfDigits (ds : List Char) : Nat := ds.foldl (fun a c => 10 * a + digitVal c) 0

/-- Decimal digit character for a value below ten. -/
def digitChar10 : Nat → Char
  | 0 => '0' | 1 => '1' | 2 => '2' | 3 => '3' | 4 => '4'
  | 5 => '5' | 6 => '6' | 7 => '7' | 8 => '8' | _ => '9'

/-- Decimal digit characters of a natural number, most significant first, fuel-driven;
fuel at least the number itself plus one suffices. -/
def natDigitsAux : Nat → Nat → List Char
  | 0, _ => []
  | fuel + 1, n => if n = 0 then [] else natDigitsAux fuel (n / 10) ++ [digitChar10 (n % 10)]

/-- Decimal string of a natural number. -/
def natStr (n : Nat) : String :=
  if n = 0 then "0" else String.mk (natDigitsAux (n + 1) n)

/-- Count of decimal digits of a natural number (0 for 0). -/
def numDigits (n : Nat) : Nat := (natDigitsAux (n + 1) n).length

/-- Python decimal.Decimal values: finite values (value = sign * coeff * 10 ^ exp,
sign true meaning negative), infinities, and quiet or signaling NaNs with payload. -/
inductive PyDec where
  | finite (sign : Bool) (coeff : Nat) (exp : Int)
  | infty (sign : Bool)
  | nan (signaling : Bool) (sign : Bool) (payload : Nat)
deriving DecidableEq

/-- Parse the digits-dot-exponent body of a decimal numeric string (grammar of the
Python decimal constructor after sign extraction; input already lowercased). -/
def parseFinite (sign : Bool) (cs : List Char) : Option PyDec :=
  let intPart := cs.takeWhile Char.isDigit
  let rest := cs.dropWhile Char.isDigit
  let fracPart := match rest with | '.' :: r => r.takeWhile Char.isDigit | _ => []
  let rest2 := match rest with | '.' :: r => r.dropWhile Char.isDigit | _ => rest
  if intPart.isEmpty && fracPart.isEmpty then none
  else
    let coeff := natOfDigits (intPart ++ fracPart)
    let fexp : Int := -(fracPart.length : Int)
    match rest2 with
    | [] => some (.finite sign coeff fexp)
    | e :: r =>
      if e == 'e' then
        let esign : Bool := match r with | '-' :: _ => true | _ => false
        let r2 := match r with | '+' :: rr => rr | '-' :: rr => rr | _ => r
        if r2.isEmpty || !(r2.all Char.isDigit) then none
        else some (.finite sign coeff
          ((if esign then -(natOfDigits r2 : Int) else (natOfDigits r2 : Int)) + fexp))
      else none

/-- Parse a numeric string per the Python decimal constructor grammar (sign, finite
forms, infinities, NaNs); the input is lowercased, whitespace- and underscore-free. -/
def pyDecParseCore (cs : List Char) : Option PyDec :=
  let sign : Bool := match cs with | '-' :: _ => true | _ => false
  let cs1 := match cs with | '+' :: r => r | '-' :: r => r | _ => cs
  if cs1 = ['i', 'n', 'f'] ∨ cs1 = ['i', 'n', 'f', 'i', 'n', 'i', 't', 'y'] then
    some (.infty sign)
  else
    match cs1 with
    | 's' :: 'n' :: 'a' :: 'n' :: r =>
      if r.all Char.isDigit then some (.nan true sign (natOfDigits r)) else none
    | 'n' :: 'a' :: 'n' :: r =>
      if r.all Char.isDigit then some (.nan false sign (natOfDigits r)) else none
    | _ => parseFinite sign cs1

/-- Python decimal.Decimal construction from a string: strip whitespace, drop
underscores, case-insensitive grammar; none when the construction raises. -/
def pyDecParse (s : String) : Option PyDec :=
  pyDecParseCore (((stripList s.data).filter (fun c => !(c == '_'))).map lowerChar)

/-- Signed scaled integer pair used to compare or subtract two finite decimals exactly. -/
def finScaled (s1 : Bool) (c1 : Nat) (e1 : Int) (s2 : Bool) (c2 : Nat) (e2 : Int) :
    Int × Int :=
  let m := min e1 e2
  ((if s1 then -(c1 : Int) else (c1 : Int)) * 10 ^ (e1 - m).toNat,
   (if s2 then -(c2 : Int) else (c2 : Int)) * 10 ^ (e2 - m).toNat)

/-- Ordering of two integers. -/
def cmpInt (a b : Int) : Ordering :=
  if a < b then .lt else if b < a then .gt else .eq

/-- Python decimal order comparison; none models the InvalidOperation raised on a
NaN operand (quiet or signaling). -/
def decCompare : PyDec → PyDec → Option Ordering
  | .nan _ _ _, _ => none
  | _, .nan _ _ _ => none
  | .infty s1, .infty s2 => some (if s1 = s2 then .eq else if s1 then .lt else .gt)
  | .infty s1, .finite _ _ _ => some (if s1 then .lt else .gt)
  | .finite _ _ _, .infty s2 => some (if s2 then .gt else .lt)
  | .finite s1 c1 e1, .finite s2 c2 e2 =>
    let p := finScaled s1 c1 e1 s2 c2 e2
    some (cmpInt p.1 p.2)

/-- Round an exact integer-scaled result to 28 significant digits, half-even
(the default decimal context), producing a finite PyDec. -/
def roundDec (n : Int) (e : Int) : PyDec :=
  if n = 0 then .finite false 0 e
  else
    let a := n.natAbs
    let k := numDigits a
    if k ≤ 28 then .finite (decide (n < 0)) a e
    else
      let d := k - 28
      let p : Nat := 10 ^ d
      let q := a / p
      let r := a % p
      let h := p / 2
      let q2 := if h < r || (r == h && q % 2 == 1) then q + 1 else q
      if q2 = 10 ^ 28 then .finite (decide (n < 0)) (10 ^ 27) (e + d + 1)
      else .finite (decide (n < 0)) q2 (e + d)

/-- Python decimal subtraction under the default context (precision 28, half-even);
none models the raised InvalidOperation (signaling NaN operand, or same-signed
infinities); a quiet NaN operand propagates quietly. -/
def decSub : PyDec → PyDec → Option PyDec
  | .nan true _ _, _ => none
  | _, .nan true _ _ => none
  | .nan false s p, _ => some (.nan false s p)
  | _, .nan false s p => some (.nan false s p)
  | .infty s1, .infty s2 => if s1 = s2 then none else some (.infty s1)
  | .infty s1, .finite _ _ _ => some (.infty s1)
  | .finite _ _ _, .infty s2 => some (.infty (!s2))
  | .finite s1 c1 e1, .finite s2 c2 e2 =>
    let p := finScaled s1 c1 e1 s2 c2 e2
    some (roundDec (p.1 - p.2) (min e1 e2))

/-- Python abs on a decimal value. -/
def decAbs : PyDec → PyDec
  | .finite _ c e => .finite false c e
  | .infty _ => .infty false
  | .nan sig _ p => .nan sig false p

/-- Digit characters of a coefficient, with 0 rendered as a single zero digit. -/
def coeffDigits (c : Nat) : List Char :=
  if c = 0 then ['0'] else natDigitsAux (c + 1) c

/-- Character list of Python str() on an unsigned finite decimal: the
to-scientific-string algorithm of the decimal specification. -/
def finStrL (c : Nat) (e : Int) : List Char :=
  let ds := coeffDigits c
  let L := ds.length
  let adj : Int := e + L - 1
  if e ≤ 0 ∧ -6 ≤ adj then
    if e = 0 then ds
    else
      let f := (-e).toNat
      if f < L then ds.take (L - f) ++ '.' :: ds.drop (L - f)
      else '0' :: '.' :: (List.replicate (f - L) '0' ++ ds)
  else
    (if L = 1 then ds else ds.take 1 ++ '.' :: ds.drop 1) ++
      'E' :: (if adj < 0 then '-' else '+') :: coeffDigits adj.natAbs

/-- Character list of Python str() on a decimal value. -/
def decStrL : PyDec → List Char
  | .finite s c e => (if s then ['-'] else []) ++ finStrL c e
  | .infty s =>
    if s then ['-', 'I', 'n', 'f', 'i', 'n', 'i', 't', 'y']
    else ['I', 'n', 'f', 'i', 'n', 'i', 't', 'y']
  | .nan sig s p =>
    (if s then ['-'] else []) ++ (if sig then ['s'] else []) ++ ['N', 'a', 'N'] ++
      (if p = 0 then [] else natDigitsAux (p + 1) p)

/-- Python str() on a decimal value. -/
def decStr (d : PyDec) : String := String.mk (decStrL d)

/-- Whether a decimal value is a NaN. -/
def isNan : PyDec → Bool
  | .nan _ _ _ => true
  | _ => false

/-- Source is_numeric: the value, with commas and apostrophes removed and whitespace
stripped, is nonempty and constructs a Decimal without raising. -/
def is_numeric (value : String) : Bool :=
  let cleaned_value :=
    pyStrip (String.mk ((value.data.filter (fun c => !(c == ','))).filter
      (fun c => !(c == aposChar))))
  if cleaned_value = "" then false else (pyDecParse cleaned_value).isSome

/-- Source clean_amount: remove commas and apostrophes and strip whitespace. -/
def clean_amount (value : String) : String :=
  pyStrip (String.mk ((value.data.filter (fun c => !(c == ','))).filter
    (fun c => !(c == aposChar))))

/-- Source is_date: the token is exactly two digits, dot, two digits, dot, two digits. -/
def is_date (text : String) : Bool :=
  match text.data with
  | [d1, d2, p1, d3, d4, p2, d5, d6] =>
    d1.isDigit && d2.isDigit && p1 == '.' && d3.isDigit && d4.isDigit && p2 == '.' &&
      d5.isDigit && d6.isDigit
  | _ => false

/-- Fields extracted from one accepted line by extract_transaction_data. -/
structure ParsedFields where
  date : String
  description : String
  amount : Option String
  balance : String
deriving DecidableEq

/-- Scan of a reversed token list: first numeric token, its cleaned form and the
loop counter (source loop over enumerate(reversed(parts))). -/
def revScanGo : List String → Nat → Option (String × Nat)
  | [], _ => none
  | p :: ps, i => if is_numeric p then some (clean_amount p, i) else revScanGo ps (i + 1)

/-- Balance search of the source: rightmost numeric token, cleaned, with its index
in parts (balance_index = len(parts) - 1 - i). -/
def balanceScan (parts : List String) : Option (String × Nat) :=
  match revScanGo parts.reverse 0 with
  | none => none
  | some (b, i) => some (b, parts.length - 1 - i)

/-- Amount search of the source: loop for i in range(balance_index - 1, 0, -1),
first numeric token strictly between date and balance, scanning downward; the
argument is the first index to try (index 0 is never tried). -/
def amountScanGo (parts : List String) : Nat → Option (String × Nat)
  | 0 => none
  | j + 1 =>
    if parts.length ≤ j + 1 then amountScanGo parts j
    else if is_numeric (parts.getD (j + 1) "") then
      some (clean_amount (parts.getD (j + 1) ""), j + 1)
    else amountScanGo parts j

/-- Source extract_transaction_data: decide whether a raw line is a transaction
line and extract date, description, optional amount, and balance. -/
def extract_transaction_data (line : String) : Option ParsedFields :=
  let parts := pySplit line
  if parts.length < 3 then none
  else if !(is_date (parts.getD 0 "")) then none
  else
    match balanceScan parts with
    | none => none
    | some (balance, balance_index) =>
      if balance = "" then none
      else
        let amt := amountScanGo parts (balance_index - 1)
        let description_parts :=
          match amt with
          | some (_, amount_index) => (parts.take amount_index).drop 1
          | none => (parts.take balance_index).drop 1
        let description := pyStrip (String.intercalate " " description_parts)
        some { date := parts.getD 0 "", description := description,
               amount := amt.map (fun x => x.1), balance := balance }

/-- Output record of the parser (keys Date, Description, Debit, Credit, Balance). -/
structure Transaction where
  Date : String
  Description : String
  Debit : String
  Credit : String
  Balance : String
deriving DecidableEq

/-- One iteration of the line loop of parse_pdf: tokenize, parse balance and amount
as decimals, classify debit/credit against the previous balance, and emit the
record with the new previous balance; none when the line is skipped (tokenizer
rejection, or a caught exception such as an order comparison on NaN). -/
def lineStep (prev : Option PyDec) (line : String) : Option (Transaction × PyDec) :=
  match extract_transaction_data line with
  | none => none
  | some td =>
    match pyDecParse td.balance with
    | none => none
    | some current =>
      match (match td.amount with
             | none => some none
             | some a =>
               if a = "" then some none
               else match pyDecParse a with
                    | none => none
                    | some d => some (some d)) with
      | none => none
      | some amountOpt =>
        match prev, amountOpt with
        | some p, some av =>
          match decCompare current p with
          | none => none
          | some .gt =>
            some ({ Date := td.date, Description := td.description, Debit := "",
                    Credit := decStr av, Balance := td.balance }, current)
          | some _ =>
            some ({ Date := td.date, Description := td.description,
                    Debit := decStr av, Credit := "", Balance := td.balance }, current)
        | _, _ =>
          some ({ Date := td.date, Description := td.description, Debit := "",
                  Credit := "", Balance := td.balance }, current)

/-- The line loop of parse_pdf over one page: emit records in line order, threading
the previous balance. -/
def parseLinesGo (prev : Option PyDec) : List String → List Transaction
  | [] => []
  | l :: ls =>
    match lineStep prev l with
    | none => parseLinesGo prev ls
    | some (t, c) => t :: parseLinesGo (some c) ls

/-- The previous-balance state after processing a list of lines. -/
def lineStateAfter (prev : Option PyDec) : List String → Option PyDec
  | [] => prev
  | l :: ls =>
    match lineStep prev l with
    | none => lineStateAfter prev ls
    | some (_, c) => lineStateAfter (some c) ls

/-- The page loop of parse_pdf: pages in document order, the previous balance
carried across pages (a page with no extracted text contributes no lines). -/
def parsePagesGo (prev : Option PyDec) : List (List String) → List Transaction
  | [] => []
  | pg :: pgs => parseLinesGo prev pg ++ parsePagesGo (lineStateAfter prev pg) pgs

/-- Source parse_pdf, restricted to its in-scope core: the nested page/line loops
with previous balance initialized to None. The file handling and pdfplumber text
extraction are external collaborators; their output is the page list of raw lines. -/
def parse_pdf (pages : List (List String)) : List Transaction :=
  parsePagesGo none pages

/-- One iteration of the loop of validate_transactions: strip the required fields,
drop incomplete records, parse the balance, backfill an empty debit/credit pair
from the balance delta, and return the kept record with the new previous balance;
none when the record is dropped (missing field or caught InvalidOperation). -/
def valStep (prev : Option PyDec) (t : Transaction) : Option (Transaction × PyDec) :=
  let date := pyStrip t.Date
  let description := pyStrip t.Description
  let balance := pyStrip t.Balance
  if date = "" ∨ description = "" ∨ balance = "" then none
  else
    match pyDecParse balance with
    | none => none
    | some current =>
      let debit := pyStrip t.Debit
      let credit := pyStrip t.Credit
      match prev with
      | none =>
        some ({ Date := date, Description := description, Debit := debit,
                Credit := credit, Balance := balance }, current)
      | some p =>
        match decSub current p with
        | none => none
        | some diff0 =>
          let balance_diff := decAbs diff0
          if debit = "" ∧ credit = "" then
            match decCompare current p with
            | none => none
            | some .lt =>
              some ({ Date := date, Description := description,
                      Debit := decStr balance_diff, Credit := "",
                      Balance := balance }, current)
            | some .gt =>
              some ({ Date := date, Description := description, Debit := "",
                      Credit := decStr balance_diff, Balance := balance }, current)
            | some .eq =>
              some ({ Date := date, Description := description, Debit := "",
                      Credit := "", Balance := balance }, current)
          else
            some ({ Date := date, Description := description, Debit := debit,
                    Credit := credit, Balance := balance }, current)

/-- The record loop of validate_transactions, threading the previous balance
(updated after every kept record, untouched on dropped records). -/
def validateGo (prev : Option PyDec) : List Transaction → List Transaction
  | [] => []
  | t :: ts =>
    match valStep prev t with
    | none => validateGo prev ts
    | some (t2, c) => t2 :: validateGo (some c) ts

/-- The previous-balance state of the validator after a list of records. -/
def valStateAfter (prev : Option PyDec) : List Transaction → Option PyDec
  | [] => prev
  | t :: ts =>
    match valStep prev t with
    | none => valStateAfter prev ts
    | some (_, c) => valStateAfter (some c) ts

/-- Source validate_transactions: previous balance re-initialized to None. -/
def validate_transactions (ts : List Transaction) : List Transaction :=
  validateGo none ts

/-! Helper lemmas about stripping and the characters of printed decimals. -/

theorem head_dropWhile_false (p : Char → Bool) (l : List Char) (c : Char)
    (h : (l.dropWhile p).head? = some c) : p c = false := by
  have hm := List.head?_dropWhile_not p l
  rw [h] at hm
  exact hm

theorem dropWhile_eq_self_of_head (p : Char → Bool) (l : List Char)
    (h : ∀ c, l.head? = some c → p c = false) : l.dropWhile p = l := by
  cases l with
  | nil => rfl
  | cons a as =>
    have ha := h a rfl
    simp [List.dropWhile_cons, ha]

theorem stripList_head (l : List Char) (c : Char) (h : (stripList l).head? = some c) :
    pyIsSpace c = false := by
  have hd : l.dropWhile pyIsSpace =
      stripList l ++ (List.takeWhile pyIsSpace (l.dropWhile pyIsSpace).reverse).reverse := by
    have h2 : ((l.dropWhile pyIsSpace).reverse).reverse =
        (List.takeWhile pyIsSpace (l.dropWhile pyIsSpace).reverse ++
          List.dropWhile pyIsSpace (l.dropWhile pyIsSpace).reverse).reverse := by
      rw [List.takeWhile_append_dropWhile]
    rw [List.reverse_append, List.reverse_reverse] at h2
    exact h2
  cases hs : stripList l with
  | nil => rw [hs] at h; cases h
  | cons x xs =>
    rw [hs] at h
    have hx : x = c := by simpa using h
    subst hx
    have hhead : (l.dropWhile pyIsSpace).head? = some x := by rw [hd, hs]; rfl
    exact head_dropWhile_false _ _ _ hhead

theorem stripList_last (l : List Char) (c : Char) (h : (stripList l).getLast? = some c) :
    pyIsSpace c = false := by
  unfold stripList at h
  rw [List.getLast?_reverse] at h
  exact head_dropWhile_false _ _ _ h

theorem stripList_of_ends (l : List Char)
    (h1 : ∀ c, l.head? = some c → pyIsSpace c = false)
    (h2 : ∀ c, l.getLast? = some c → pyIsSpace c = false) : stripList l = l := by
  unfold stripList
  rw [dropWhile_eq_self_of_head _ _ h1]
  rw [dropWhile_eq_self_of_head _ _ (fun c hc => h2 c (by rwa [← List.head?_reverse]))]
  exact List.reverse_reverse l

theorem stripList_idem (l : List Char) : stripList (stripList l) = stripList l :=
  stripList_of_ends _ (stripList_head l) (stripList_last l)

theorem stripList_of_no_space (l : List Char) (h : ∀ c ∈ l, pyIsSpace c = false) :
    stripList l = l :=
  stripList_of_ends l
    (fun c hc => h c (List.mem_of_mem_head? (by rw [hc]; rfl)))
    (fun c hc => h c (List.mem_reverse.mp (List.mem_of_mem_head?
      (by rw [List.head?_reverse, hc]; rfl))))

theorem pyStrip_idem (s : String) : pyStrip (pyStrip s) = pyStrip s :=
  congrArg String.mk (stripList_idem s.data)

theorem pyStrip_of_no_space (s : String) (h : ∀ c ∈ s.data, pyIsSpace c = false) :
    pyStrip s = s := by
  unfold pyStrip
  rw [stripList_of_no_space _ h]

theorem digitChar10_not_space (k : Nat) : pyIsSpace (digitChar10 k) = false := by
  unfold digitChar10
  rcases k with _|_|_|_|_|_|_|_|_|_ <;> rfl

theorem natDigitsAux_not_space (fuel : Nat) :
    ∀ (n : Nat), ∀ c ∈ natDigitsAux fuel n, pyIsSpace c = false := by
  induction fuel with
  | zero => intro n c hc; cases hc
  | succ f ih =>
    intro n c hc
    unfold natDigitsAux at hc
    by_cases h : n = 0
    · rw [if_pos h] at hc; cases hc
    · rw [if_neg h] at hc
      rcases List.mem_append.mp hc with h1 | h2
      · exact ih _ c h1
      · have : c = digitChar10 (n % 10) := by simpa using h2
        rw [this]; exact digitChar10_not_space _

theorem coeffDigits_not_space (n : Nat) : ∀ c ∈ coeffDigits n, pyIsSpace c = false := by
  intro c hc
  unfold coeffDigits at hc
  by_cases h : n = 0
  · rw [if_pos h] at hc
    have : c = '0' := by simpa using hc
    rw [this]; rfl
  · rw [if_neg h] at hc
    exact natDigitsAux_not_space _ _ c hc

theorem coeffDigits_ne_nil (n : Nat) : coeffDigits n ≠ [] := by
  unfold coeffDigits
  by_cases h : n = 0
  · rw [if_pos h]; simp
  · rw [if_neg h]
    unfold natDigitsAux
    rw [if_neg h]
    simp

theorem finStrL_not_space (c : Nat) (e : Int) : ∀ x ∈ finStrL c e, pyIsSpace x = false := by
  intro x hx
  have hds := coeffDigits_not_space c
  have hadj := coeffDigits_not_space (e + ((coeffDigits c).length : Int) - 1).natAbs
  simp only [finStrL] at hx
  split at hx
  · split at hx
    · exact hds x hx
    · split at hx
      · rcases List.mem_append.mp hx with h1 | h2
        · exact hds x (List.take_subset _ _ h1)
        · rcases List.mem_cons.mp h2 with h3 | h4
          · rw [h3]; rfl
          · exact hds x (List.drop_subset _ _ h4)
      · rcases List.mem_cons.mp hx with h1 | h2
        · rw [h1]; rfl
        · rcases List.mem_cons.mp h2 with h3 | h4
          · rw [h3]; rfl
          · rcases List.mem_append.mp h4 with h5 | h6
            · rw [List.eq_of_mem_replicate h5]; rfl
            · exact hds x h6
  · rcases List.mem_append.mp hx with h1 | h2
    · split at h1
      · exact hds x h1
      · rcases List.mem_append.mp h1 with h3 | h4
        · exact hds x (List.take_subset _ _ h3)
        · rcases List.mem_cons.mp h4 with h5 | h6
          · rw [h5]; rfl
          · exact hds x (List.drop_subset _ _ h6)
    · rcases List.mem_cons.mp h2 with h3 | h4
      · rw [h3]; rfl
      · rcases List.mem_cons.mp h4 with h5 | h6
        · rw [h5]; split <;> rfl
        · exact hadj x h6

theorem decStrL_not_space (d : PyDec) : ∀ c ∈ decStrL d, pyIsSpace c = false := by
  intro c hc
  match d with
  | .finite s co e =>
    simp only [decStrL] at hc
    rcases List.mem_append.mp hc with h1 | h2
    · split at h1
      · simp only [List.mem_cons, List.not_mem_nil, or_false] at h1
        rw [h1]; rfl
      · cases h1
    · exact finStrL_not_space co e c h2
  | .infty s =>
    simp only [decStrL] at hc
    split at hc
    · simp only [List.mem_cons, List.not_mem_nil, or_false] at hc
      rcases hc with rfl | rfl | rfl | rfl | rfl | rfl | rfl | rfl | rfl <;> rfl
    · simp only [List.mem_cons, List.not_mem_nil, or_false] at hc
      rcases hc with rfl | rfl | rfl | rfl | rfl | rfl | rfl | rfl <;> rfl
  | .nan sig s p =>
    simp only [decStrL] at hc
    rcases List.mem_append.mp hc with h1 | h2
    · rcases List.mem_append.mp h1 with h3 | h4
      · rcases List.mem_append.mp h3 with h5 | h6
        · split at h5
          · simp only [List.mem_cons, List.not_mem_nil, or_false] at h5
            rw [h5]; rfl
          · cases h5
        · split at h6
          · simp only [List.mem_cons, List.not_mem_nil, or_false] at h6
            rw [h6]; rfl
          · cases h6
      · simp only [List.mem_cons, List.not_mem_nil, or_false] at h4
        rcases h4 with rfl | rfl | rfl <;> rfl
    · split at h2
      · cases h2
      · exact natDigitsAux_not_space _ _ c h2

theorem finStrL_ne_nil (c : Nat) (e : Int) : finStrL c e ≠ [] := by
  have hds := coeffDigits_ne_nil c
  simp only [finStrL]
  split
  · split
    · exact hds
    · split
      · intro h
        rcases List.append_eq_nil.mp h with ⟨_, h2⟩
        cases h2
      · intro h; cases h
  · intro h
    rcases List.append_eq_nil.mp h with ⟨_, h2⟩
    cases h2

theorem decStrL_ne_nil (d : PyDec) : decStrL d ≠ [] := by
  match d with
  | .finite s co e =>
    simp only [decStrL]
    intro h
    rcases List.append_eq_nil.mp h with ⟨_, h2⟩
    exact finStrL_ne_nil co e h2
  | .infty s =>
    simp only [decStrL]
    split <;> simp
  | .nan sig s p =>
    simp only [decStrL]
    intro h
    rcases List.append_eq_nil.mp h with ⟨h1, _⟩
    rcases List.append_eq_nil.mp h1 with ⟨_, h3⟩
    cases h3

theorem decStr_ne_empty (d : PyDec) : decStr d ≠ "" := by
  unfold decStr
  intro h
  exact decStrL_ne_nil d (by simpa using congrArg String.data h)

theorem pyStrip_decStr (d : PyDec) : pyStrip (decStr d) = decStr d :=
  pyStrip_of_no_space _ (decStrL_not_space d)

theorem is_numeric_clean (v : String) (h : is_numeric v = true) :
    clean_amount v ≠ "" ∧ (pyDecParse (clean_amount v)).isSome = true := by
  simp only [is_numeric] at h
  split at h
  · cases h
  · exact ⟨by assumption, h⟩

theorem clean_amount_eq_self (t : String) (hsp : ∀ c ∈ t.data, pyIsSpace c = false)
    (hca : ∀ c ∈ t.data, c ≠ ',' ∧ c ≠ aposChar) : clean_amount t = t := by
  simp only [clean_amount]
  have h1 : t.data.filter (fun c => !(c == ',')) = t.data :=
    List.filter_eq_self.mpr (fun a ha => by
      have := (hca a ha).1
      simpa using this)
  rw [h1]
  have h2 : t.data.filter (fun c => !(c == aposChar)) = t.data :=
    List.filter_eq_self.mpr (fun a ha => by
      have := (hca a ha).2
      simpa using this)
  rw [h2]
  exact pyStrip_of_no_space t hsp

/-! Characterizations of the balance and amount scans of the tokenizer. -/

theorem revScanGo_some (l : List String) (k : Nat) (b : String) (i : Nat)
    (h : revScanGo l k = some (b, i)) :
    ∃ pre p suf, l = pre ++ p :: suf ∧ (∀ q ∈ pre, is_numeric q = false) ∧
      is_numeric p = true ∧ b = clean_amount p ∧ i = k + pre.length := by
  induction l generalizing k with
  | nil => cases h
  | cons p ps ih =>
    unfold revScanGo at h
    by_cases hp : is_numeric p = true
    · rw [if_pos hp] at h
      have hb : b = clean_amount p ∧ i = k := by
        constructor <;> (injection h with h2; injection h2 with h3 h4)
        · exact h3.symm
        · exact h4.symm
      exact ⟨[], p, ps, rfl, by simp, hp, hb.1, by simpa using hb.2⟩
    · rw [if_neg hp] at h
      obtain ⟨pre, q, suf, hl, hpre, hq, hb, hi⟩ := ih (k + 1) h
      refine ⟨p :: pre, q, suf, by simp [hl], ?_, hq, hb, ?_⟩
      · intro r hr
        rcases List.mem_cons.mp hr with h1 | h2
        · rw [h1]; exact Bool.not_eq_true _ ▸ (by simpa using hp)
        · exact hpre r h2
      · simp only [List.length_cons]
        omega

theorem revScanGo_eq_some (pre suf : List String) (p : String) (k : Nat)
    (hpre : ∀ q ∈ pre, is_numeric q = false) (hp : is_numeric p = true) :
    revScanGo (pre ++ p :: suf) k = some (clean_amount p, k + pre.length) := by
  induction pre generalizing k with
  | nil => simp [revScanGo, hp]
  | cons a pre ih =>
    have ha := hpre a (by simp)
    simp only [List.cons_append]
    unfold revScanGo
    rw [if_neg (by simp [ha])]
    rw [ih (k + 1) (fun q hq => hpre q (by simp [hq]))]
    simp only [List.length_cons]
    congr 2
    omega

theorem revScanGo_none (l : List String) :
    ∀ k, revScanGo l k = none ↔ ∀ q ∈ l, is_numeric q = false := by
  induction l with
  | nil => intro k; simp [revScanGo]
  | cons p ps ih =>
    intro k
    unfold revScanGo
    by_cases hp : is_numeric p = true
    · rw [if_pos hp]
      simp [hp]
    · rw [if_neg hp]
      rw [ih (k + 1)]
      constructor
      · intro hh q hq
        rcases List.mem_cons.mp hq with h1 | h2
        · rw [h1]; exact Bool.not_eq_true _ ▸ (by simpa using hp)
        · exact hh q h2
      · intro hh q hq
        exact hh q (by simp [hq])

theorem balanceScan_some (parts : List String) (b : String) (i : Nat)
    (h : balanceScan parts = some (b, i)) :
    ∃ pre p suf, parts = pre ++ p :: suf ∧ is_numeric p = true ∧
      b = clean_amount p ∧ (∀ q ∈ suf, is_numeric q = false) ∧ i = pre.length := by
  unfold balanceScan at h
  cases hr : revScanGo parts.reverse 0 with
  | none => rw [hr] at h; cases h
  | some bi =>
    rw [hr] at h
    obtain ⟨b0, i0⟩ := bi
    have hb : b = b0 ∧ i = parts.length - 1 - i0 := by
      constructor <;> (injection h with h2; injection h2 with h3 h4)
      · exact h3.symm
      · exact h4.symm
    obtain ⟨pre, p, suf, hsplit, hpre, hp, hbc, hi⟩ := revScanGo_some _ _ _ _ hr
    have hparts : parts = suf.reverse ++ p :: pre.reverse := by
      have h5 := congrArg List.reverse hsplit
      rw [List.reverse_reverse] at h5
      rw [h5]
      simp [List.reverse_append]
    refine ⟨suf.reverse, p, pre.reverse, hparts, hp, by rw [hb.1, hbc], ?_, ?_⟩
    · intro q hq
      exact hpre q (List.mem_reverse.mp hq)
    · have hlen : parts.length = suf.length + 1 + pre.length := by
        rw [hparts]
        simp only [List.length_append, List.length_cons, List.length_reverse]
        omega
      rw [hb.2, hi]
      simp only [List.length_reverse]
      omega

theorem balanceScan_eq_some (pre suf : List String) (p : String)
    (hp : is_numeric p = true) (hsuf : ∀ q ∈ suf, is_numeric q = false) :
    balanceScan (pre ++ p :: suf) = some (clean_amount p, pre.length) := by
  unfold balanceScan
  have hrev : (pre ++ p :: suf).reverse = suf.reverse ++ p :: pre.reverse := by
    simp [List.reverse_append]
  rw [hrev]
  rw [revScanGo_eq_some suf.reverse pre.reverse p 0
    (fun q hq => hsuf q (List.mem_reverse.mp hq)) hp]
  have hlen : (pre ++ p :: suf).length - 1 - (0 + suf.reverse.length) = pre.length := by
    simp only [List.length_append, List.length_cons, List.length_reverse, Nat.zero_add]
    omega
  show some (clean_amount p, (pre ++ p :: suf).length - 1 - (0 + suf.reverse.length)) =
    some (clean_amount p, pre.length)
  rw [hlen]

theorem balanceScan_none (parts : List String) :
    balanceScan parts = none ↔ ∀ q ∈ parts, is_numeric q = false := by
  unfold balanceScan
  cases hr : revScanGo parts.reverse 0 with
  | none =>
    have hall := (revScanGo_none parts.reverse 0).mp hr
    constructor
    · intro _ q hq
      exact hall q (List.mem_reverse.mpr hq)
    · intro _
      rfl
  | some bi =>
    obtain ⟨b0, i0⟩ := bi
    constructor
    · intro h; cases h
    · intro hall
      have : revScanGo parts.reverse 0 = none :=
        (revScanGo_none parts.reverse 0).mpr (fun q hq => hall q (List.mem_reverse.mp hq))
      rw [this] at hr
      cases hr

theorem amountScanGo_some (parts : List String) :
    ∀ (k : Nat) (a : String) (ai : Nat), amountScanGo parts k = some (a, ai) →
      ∃ p, is_numeric p = true ∧ a = clean_amount p ∧ 1 ≤ ai ∧ ai ≤ k ∧
        p = parts.getD ai "" := by
  intro k
  induction k with
  | zero => intro a ai h; cases h
  | succ j ih =>
    intro a ai h
    unfold amountScanGo at h
    split at h
    · obtain ⟨p, h1, h2, h3, h4, h5⟩ := ih a ai h
      exact ⟨p, h1, h2, h3, by omega, h5⟩
    · split at h
      · have ha : a = clean_amount (parts.getD (j + 1) "") ∧ ai = j + 1 := by
          constructor <;> (injection h with h2; injection h2 with h3 h4)
          · exact h3.symm
          · exact h4.symm
        exact ⟨parts.getD (j + 1) "", by assumption, ha.1, by omega, by omega, by rw [ha.2]⟩
      · obtain ⟨p, h1, h2, h3, h4, h5⟩ := ih a ai h
        exact ⟨p, h1, h2, h3, by omega, h5⟩

theorem pySplitGo_no_space (cs : List Char) :
    ∀ (cur : List Char), (∀ c ∈ cur, pyIsSpace c = false) →
      ∀ t ∈ pySplitGo cs cur, ∀ c ∈ t.data, pyIsSpace c = false := by
  induction cs with
  | nil =>
    intro cur hcur t ht c hc
    unfold pySplitGo at ht
    split at ht
    · cases ht
    · have heq : t = String.mk cur.reverse := by simpa using ht
      rw [heq] at hc
      exact hcur c (List.mem_reverse.mp hc)
  | cons a cs ih =>
    intro cur hcur t ht c hc
    unfold pySplitGo at ht
    by_cases ha : pyIsSpace a = true
    · rw [if_pos ha] at ht
      split at ht
      · exact ih [] (by simp) t ht c hc
      · rcases List.mem_cons.mp ht with h1 | h2
        · rw [h1] at hc
          exact hcur c (List.mem_reverse.mp hc)
        · exact ih [] (by simp) t h2 c hc
    · rw [if_neg ha] at ht
      refine ih (a :: cur) ?_ t ht c hc
      intro x hx
      rcases List.mem_cons.mp hx with h1 | h2
      · rw [h1]
        simpa using ha
      · exact hcur x h2

theorem pySplit_no_space (line : String) :
    ∀ t ∈ pySplit line, ∀ c ∈ t.data, pyIsSpace c = false :=
  pySplitGo_no_space line.data [] (by simp)

theorem extract_eq_of_scan (line : String)
    (h3 : ¬ (pySplit line).length < 3) (hd : is_date ((pySplit line).getD 0 "") = true)
    (b : String) (bi : Nat) (hb : balanceScan (pySplit line) = some (b, bi))
    (hbne : b ≠ "") :
    extract_transaction_data line = some {
      date := (pySplit line).getD 0 "",
      description := pyStrip (String.intercalate " "
        (match amountScanGo (pySplit line) (bi - 1) with
          | some x => ((pySplit line).take x.2).drop 1
          | none => ((pySplit line).take bi).drop 1)),
      amount := (amountScanGo (pySplit line) (bi - 1)).map (fun x => x.1),
      balance := b } := by
  simp only [extract_transaction_data, if_neg h3, hd, Bool.not_true, hb, if_neg hbne]
  cases hamt : amountScanGo (pySplit line) (bi - 1) with
  | none => simp [hamt]
  | some x =>
    obtain ⟨a, ai⟩ := x
    simp [hamt]

theorem extract_some_parts (line : String) (td : ParsedFields)
    (h : extract_transaction_data line = some td) :
    ∃ bi, ¬ (pySplit line).length < 3 ∧ is_date ((pySplit line).getD 0 "") = true ∧
      balanceScan (pySplit line) = some (td.balance, bi) ∧ td.balance ≠ "" ∧
      td.amount = (amountScanGo (pySplit line) (bi - 1)).map (fun x => x.1) ∧
      td.date = (pySplit line).getD 0 "" := by
  by_cases h3 : (pySplit line).length < 3
  · simp [extract_transaction_data, if_pos h3] at h
  · by_cases hd : is_date ((pySplit line).getD 0 "") = true
    · cases hb : balanceScan (pySplit line) with
      | none => simp [extract_transaction_data, if_neg h3, hd, hb] at h
      | some bbi =>
        obtain ⟨b, bi⟩ := bbi
        by_cases hbne : b = ""
        · simp [extract_transaction_data, if_neg h3, hd, hb, hbne] at h
        · rw [extract_eq_of_scan line h3 hd b bi hb hbne] at h
          injection h with h4
          subst h4
          exact ⟨bi, h3, hd, rfl, hbne, rfl, rfl⟩
    · have hdf : is_date ((pySplit line).getD 0 "") = false := by simpa using hd
      simp only [extract_transaction_data] at h
      rw [if_neg h3, hdf] at h
      simp at h

theorem some_pair_eq {α β : Type} {x t : α} {y c : β}
    (h : some (x, y) = some (t, c)) : x = t ∧ y = c := by
  injection h with h1
  exact ⟨congrArg Prod.fst h1, congrArg Prod.snd h1⟩

theorem extract_balance_parses (line : String) (td : ParsedFields)
    (hex : extract_transaction_data line = some td) :
    (pyDecParse td.balance).isSome = true := by
  obtain ⟨bi, _, _, hscan, _, _, _⟩ := extract_some_parts line td hex
  obtain ⟨pre, p, suf, _, hp, hb, _, _⟩ := balanceScan_some _ _ _ hscan
  rw [hb]
  exact (is_numeric_clean p hp).2

theorem extract_amount_parses (line : String) (td : ParsedFields) (a : String)
    (hex : extract_transaction_data line = some td) (ha : td.amount = some a) :
    a ≠ "" ∧ (pyDecParse a).isSome = true := by
  obtain ⟨bi, _, _, _, _, hamt, _⟩ := extract_some_parts line td hex
  rw [ha] at hamt
  cases hsc : amountScanGo (pySplit line) (bi - 1) with
  | none => rw [hsc] at hamt; cases hamt
  | some x =>
    rw [hsc] at hamt
    obtain ⟨a0, ai⟩ := x
    have ha0 : a = a0 := by simpa using hamt
    obtain ⟨p, hp, hclean, _, _, _⟩ := amountScanGo_some _ _ _ _ hsc
    rw [ha0, hclean]
    exact ⟨(is_numeric_clean p hp).1, (is_numeric_clean p hp).2⟩

theorem lineStep_some_spec (prev : Option PyDec) (line : String) (t : Transaction)
    (c : PyDec) (h : lineStep prev line = some (t, c)) :
    ∃ td, extract_transaction_data line = some td ∧ pyDecParse td.balance = some c ∧
      t.Date = td.date ∧ t.Description = td.description ∧ t.Balance = td.balance ∧
      ((t.Debit = "" ∧ t.Credit = "" ∧
          (prev = none ∨ td.amount = none ∨ td.amount = some "")) ∨
       (∃ p a av, prev = some p ∧ td.amount = some a ∧ pyDecParse a = some av ∧
         ((decCompare c p = some .gt ∧ t.Credit = decStr av ∧ t.Debit = "") ∨
          ((decCompare c p = some .lt ∨ decCompare c p = some .eq) ∧
            t.Debit = decStr av ∧ t.Credit = "")))) := by
  cases hex : extract_transaction_data line with
  | none => simp [lineStep, hex] at h
  | some td =>
    refine ⟨td, rfl, ?_⟩
    simp only [lineStep, hex] at h
    cases hbal : pyDecParse td.balance with
    | none => rw [hbal] at h; cases h
    | some cur =>
      rw [hbal] at h
      cases hamt : td.amount with
      | none =>
        simp only [hamt] at h
        cases prev with
        | none =>
          obtain ⟨ht, hc⟩ := some_pair_eq h
          rw [← hc]
          exact ⟨rfl, by rw [← ht], by rw [← ht], by rw [← ht],
            Or.inl ⟨by rw [← ht], by rw [← ht], Or.inl rfl⟩⟩
        | some p =>
          obtain ⟨ht, hc⟩ := some_pair_eq h
          rw [← hc]
          exact ⟨rfl, by rw [← ht], by rw [← ht], by rw [← ht],
            Or.inl ⟨by rw [← ht], by rw [← ht], Or.inr (Or.inl rfl)⟩⟩
      | some a =>
        simp only [hamt] at h
        by_cases hae : a = ""
        · rw [if_pos hae] at h
          cases prev with
          | none =>
            obtain ⟨ht, hc⟩ := some_pair_eq h
            rw [← hc]
            exact ⟨rfl, by rw [← ht], by rw [← ht], by rw [← ht],
              Or.inl ⟨by rw [← ht], by rw [← ht], Or.inl rfl⟩⟩
          | some p =>
            obtain ⟨ht, hc⟩ := some_pair_eq h
            rw [← hc]
            refine ⟨rfl, by rw [← ht], by rw [← ht], by rw [← ht],
              Or.inl ⟨by rw [← ht], by rw [← ht], Or.inr (Or.inr ?_)⟩⟩
            rw [hae]
        · rw [if_neg hae] at h
          cases hpa : pyDecParse a with
          | none => rw [hpa] at h; cases h
          | some av =>
            rw [hpa] at h
            cases prev with
            | none =>
              obtain ⟨ht, hc⟩ := some_pair_eq h
              rw [← hc]
              exact ⟨rfl, by rw [← ht], by rw [← ht], by rw [← ht],
                Or.inl ⟨by rw [← ht], by rw [← ht], Or.inl rfl⟩⟩
            | some p =>
              simp only [] at h
              cases hcmp : decCompare cur p with
              | none => rw [hcmp] at h; cases h
              | some ord =>
                rw [hcmp] at h
                cases ord with
                | gt =>
                  obtain ⟨ht, hc⟩ := some_pair_eq h
                  rw [← hc]
                  exact ⟨rfl, by rw [← ht], by rw [← ht], by rw [← ht],
                    Or.inr ⟨p, a, av, rfl, rfl, hpa,
                      Or.inl ⟨hcmp, by rw [← ht], by rw [← ht]⟩⟩⟩
                | lt =>
                  obtain ⟨ht, hc⟩ := some_pair_eq h
                  rw [← hc]
                  exact ⟨rfl, by rw [← ht], by rw [← ht], by rw [← ht],
                    Or.inr ⟨p, a, av, rfl, rfl, hpa,
                      Or.inr ⟨Or.inl hcmp, by rw [← ht], by rw [← ht]⟩⟩⟩
                | eq =>
                  obtain ⟨ht, hc⟩ := some_pair_eq h
                  rw [← hc]
                  exact ⟨rfl, by rw [← ht], by rw [← ht], by rw [← ht],
                    Or.inr ⟨p, a, av, rfl, rfl, hpa,
                      Or.inr ⟨Or.inr hcmp, by rw [← ht], by rw [← ht]⟩⟩⟩

theorem lineStep_none_spec (prev : Option PyDec) (line : String) (td : ParsedFields)
    (hex : extract_transaction_data line = some td) (h : lineStep prev line = none) :
    ∃ p a av cur, prev = some p ∧ td.amount = some a ∧ pyDecParse a = some av ∧
      pyDecParse td.balance = some cur ∧ decCompare cur p = none := by
  simp only [lineStep, hex] at h
  cases hbal : pyDecParse td.balance with
  | none =>
    have hps := extract_balance_parses line td hex
    rw [hbal] at hps
    cases hps
  | some cur =>
    rw [hbal] at h
    cases hamt : td.amount with
    | none =>
      simp only [hamt] at h
      cases prev <;> cases h
    | some a =>
      simp only [hamt] at h
      have hane := extract_amount_parses line td a hex hamt
      rw [if_neg hane.1] at h
      cases hpa : pyDecParse a with
      | none =>
        have := hane.2
        rw [hpa] at this
        cases this
      | some av =>
        rw [hpa] at h
        cases prev with
        | none => cases h
        | some p =>
          simp only [] at h
          cases hcmp : decCompare cur p with
          | none => exact ⟨p, a, av, cur, rfl, rfl, hpa, rfl, hcmp⟩
          | some ord =>
            rw [hcmp] at h
            cases ord <;> cases h

theorem lineStep_of_amount_none (prev : Option PyDec) (line : String) (td : ParsedFields)
    (hex : extract_transaction_data line = some td) (hamt : td.amount = none)
    (cur : PyDec) (hbal : pyDecParse td.balance = some cur) :
    lineStep prev line = some ({
      Date := td.date, Description := td.description,
      Debit := "", Credit := "", Balance := td.balance }, cur) := by
  simp only [lineStep, hex, hbal, hamt]

theorem valStep_some_spec (prev : Option PyDec) (t t2 : Transaction) (c : PyDec)
    (h : valStep prev t = some (t2, c)) :
    pyDecParse (pyStrip t.Balance) = some c ∧
    t2.Date = pyStrip t.Date ∧ t2.Description = pyStrip t.Description ∧
    t2.Balance = pyStrip t.Balance ∧
    pyStrip t.Date ≠ "" ∧ pyStrip t.Description ≠ "" ∧ pyStrip t.Balance ≠ "" ∧
    ((prev = none ∧ t2.Debit = pyStrip t.Debit ∧ t2.Credit = pyStrip t.Credit) ∨
     (∃ p diff, prev = some p ∧ decSub c p = some diff ∧
       ((¬(pyStrip t.Debit = "" ∧ pyStrip t.Credit = "") ∧
          t2.Debit = pyStrip t.Debit ∧ t2.Credit = pyStrip t.Credit) ∨
        (pyStrip t.Debit = "" ∧ pyStrip t.Credit = "" ∧
          ((decCompare c p = some .lt ∧ t2.Debit = decStr (decAbs diff) ∧
              t2.Credit = "") ∨
           (decCompare c p = some .gt ∧ t2.Credit = decStr (decAbs diff) ∧
              t2.Debit = "") ∨
           (decCompare c p = some .eq ∧ t2.Debit = "" ∧ t2.Credit = "")))))) := by
  simp only [valStep] at h
  split at h
  · cases h
  · rename_i hne
    push_neg at hne
    obtain ⟨hDne, hDene, hBne⟩ := hne
    cases hbal : pyDecParse (pyStrip t.Balance) with
    | none => rw [hbal] at h; cases h
    | some cur =>
      rw [hbal] at h
      cases prev with
      | none =>
        obtain ⟨ht, hc⟩ := some_pair_eq h
        rw [← hc]
        exact ⟨rfl, by rw [← ht], by rw [← ht], by rw [← ht], hDne, hDene, hBne,
          Or.inl ⟨rfl, by rw [← ht], by rw [← ht]⟩⟩
      | some p =>
        simp only [] at h
        cases hsub : decSub cur p with
        | none => rw [hsub] at h; cases h
        | some diff =>
          simp only [hsub] at h
          by_cases hde : pyStrip t.Debit = "" ∧ pyStrip t.Credit = ""
          · rw [if_pos hde] at h
            cases hcmp : decCompare cur p with
            | none => rw [hcmp] at h; cases h
            | some ord =>
              simp only [hcmp] at h
              cases ord with
              | lt =>
                obtain ⟨ht, hc⟩ := some_pair_eq h
                rw [← hc]
                exact ⟨rfl, by rw [← ht], by rw [← ht], by rw [← ht], hDne, hDene, hBne,
                  Or.inr ⟨p, diff, rfl, hsub, Or.inr ⟨hde.1, hde.2,
                    Or.inl ⟨hcmp, by rw [← ht], by rw [← ht]⟩⟩⟩⟩
              | gt =>
                obtain ⟨ht, hc⟩ := some_pair_eq h
                rw [← hc]
                exact ⟨rfl, by rw [← ht], by rw [← ht], by rw [← ht], hDne, hDene, hBne,
                  Or.inr ⟨p, diff, rfl, hsub, Or.inr ⟨hde.1, hde.2,
                    Or.inr (Or.inl ⟨hcmp, by rw [← ht], by rw [← ht]⟩)⟩⟩⟩
              | eq =>
                obtain ⟨ht, hc⟩ := some_pair_eq h
                rw [← hc]
                exact ⟨rfl, by rw [← ht], by rw [← ht], by rw [← ht], hDne, hDene, hBne,
                  Or.inr ⟨p, diff, rfl, hsub, Or.inr ⟨hde.1, hde.2,
                    Or.inr (Or.inr ⟨hcmp, by rw [← ht], by rw [← ht]⟩)⟩⟩⟩
          · rw [if_neg hde] at h
            obtain ⟨ht, hc⟩ := some_pair_eq h
            rw [← hc]
            exact ⟨rfl, by rw [← ht], by rw [← ht], by rw [← ht], hDne, hDene, hBne,
              Or.inr ⟨p, diff, rfl, hsub,
                Or.inl ⟨hde, by rw [← ht], by rw [← ht]⟩⟩⟩

theorem parseLinesGo_cons_none (prev : Option PyDec) (l : String) (ls : List String)
    (h : lineStep prev l = none) :
    parseLinesGo prev (l :: ls) = parseLinesGo prev ls := by
  simp only [parseLinesGo, h]

theorem parseLinesGo_cons_some (prev : Option PyDec) (l : String) (t : Transaction)
    (c : PyDec) (ls : List String) (h : lineStep prev l = some (t, c)) :
    parseLinesGo prev (l :: ls) = t :: parseLinesGo (some c) ls := by
  simp only [parseLinesGo, h]

theorem lineStateAfter_cons_none (prev : Option PyDec) (l : String) (ls : List String)
    (h : lineStep prev l = none) :
    lineStateAfter prev (l :: ls) = lineStateAfter prev ls := by
  simp only [lineStateAfter, h]

theorem lineStateAfter_cons_some (prev : Option PyDec) (l : String) (t : Transaction)
    (c : PyDec) (ls : List String) (h : lineStep prev l = some (t, c)) :
    lineStateAfter prev (l :: ls) = lineStateAfter (some c) ls := by
  simp only [lineStateAfter, h]

theorem validateGo_cons_none (prev : Option PyDec) (t : Transaction)
    (ts : List Transaction) (h : valStep prev t = none) :
    validateGo prev (t :: ts) = validateGo prev ts := by
  simp only [validateGo, h]

theorem validateGo_cons_some (prev : Option PyDec) (t t2 : Transaction) (c : PyDec)
    (ts : List Transaction) (h : valStep prev t = some (t2, c)) :
    validateGo prev (t :: ts) = t2 :: validateGo (some c) ts := by
  simp only [validateGo, h]

theorem valStateAfter_cons_none (prev : Option PyDec) (t : Transaction)
    (ts : List Transaction) (h : valStep prev t = none) :
    valStateAfter prev (t :: ts) = valStateAfter prev ts := by
  simp only [valStateAfter, h]

theorem valStateAfter_cons_some (prev : Option PyDec) (t t2 : Transaction) (c : PyDec)
    (ts : List Transaction) (h : valStep prev t = some (t2, c)) :
    valStateAfter prev (t :: ts) = valStateAfter (some c) ts := by
  simp only [valStateAfter, h]

theorem parseLinesGo_append (a : List String) :
    ∀ (b : List String) (prev : Option PyDec), parseLinesGo prev (a ++ b) =
      parseLinesGo prev a ++ parseLinesGo (lineStateAfter prev a) b := by
  induction a with
  | nil => intro b prev; rfl
  | cons l ls ih =>
    intro b prev
    rw [List.cons_append]
    cases hv : lineStep prev l with
    | none =>
      rw [parseLinesGo_cons_none _ _ _ hv, parseLinesGo_cons_none _ _ _ hv,
        lineStateAfter_cons_none _ _ _ hv, ih b prev]
    | some tc =>
      obtain ⟨t, c⟩ := tc
      rw [parseLinesGo_cons_some _ _ _ _ _ hv, parseLinesGo_cons_some _ _ _ _ _ hv,
        lineStateAfter_cons_some _ _ _ _ _ hv, ih b (some c), List.cons_append]

theorem validateGo_append (a : List Transaction) :
    ∀ (b : List Transaction) (prev : Option PyDec), validateGo prev (a ++ b) =
      validateGo prev a ++ validateGo (valStateAfter prev a) b := by
  induction a with
  | nil => intro b prev; rfl
  | cons t ts ih =>
    intro b prev
    rw [List.cons_append]
    cases hv : valStep prev t with
    | none =>
      rw [validateGo_cons_none _ _ _ hv, validateGo_cons_none _ _ _ hv,
        valStateAfter_cons_none _ _ _ hv, ih b prev]
    | some tc =>
      obtain ⟨t2, c⟩ := tc
      rw [validateGo_cons_some _ _ _ _ _ hv, validateGo_cons_some _ _ _ _ _ hv,
        valStateAfter_cons_some _ _ _ _ _ hv, ih b (some c), List.cons_append]

theorem parsePagesGo_join (pages : List (List String)) :
    ∀ prev, parsePagesGo prev pages = parseLinesGo prev pages.flatten := by
  induction pages with
  | nil => intro prev; rfl
  | cons pg pgs ih =>
    intro prev
    show parseLinesGo prev pg ++ parsePagesGo (lineStateAfter prev pg) pgs =
      parseLinesGo prev (pg :: pgs).flatten
    rw [List.flatten_cons, parseLinesGo_append, ih (lineStateAfter prev pg)]

theorem parseLinesGo_dates_sublist (ls : List String) :
    ∀ prev, List.Sublist ((parseLinesGo prev ls).map Transaction.Date)
      (ls.map (fun l => (pySplit l).getD 0 "")) := by
  induction ls with
  | nil => intro prev; simp [parseLinesGo]
  | cons l ls ih =>
    intro prev
    cases hv : lineStep prev l with
    | none =>
      rw [parseLinesGo_cons_none _ _ _ hv, List.map_cons]
      exact (ih prev).cons _
    | some tc =>
      obtain ⟨t, c⟩ := tc
      rw [parseLinesGo_cons_some _ _ _ _ _ hv, List.map_cons, List.map_cons]
      have hdate : t.Date = (pySplit l).getD 0 "" := by
        obtain ⟨td, hex, _, hD, _⟩ := lineStep_some_spec prev l t c hv
        obtain ⟨bi, _, _, _, _, _, hdd⟩ := extract_some_parts l td hex
        rw [hD, hdd]
      rw [hdate]
      exact (ih (some c)).cons₂ _

theorem validateGo_keys_sublist (ts : List Transaction) :
    ∀ prev, List.Sublist
      ((validateGo prev ts).map (fun t => (pyStrip t.Date, pyStrip t.Balance)))
      (ts.map (fun t => (pyStrip t.Date, pyStrip t.Balance))) := by
  induction ts with
  | nil => intro prev; simp [validateGo]
  | cons t ts ih =>
    intro prev
    cases hv : valStep prev t with
    | none =>
      rw [validateGo_cons_none _ _ _ hv, List.map_cons]
      exact (ih prev).cons _
    | some tc =>
      obtain ⟨t2, c⟩ := tc
      rw [validateGo_cons_some _ _ _ _ _ hv, List.map_cons, List.map_cons]
      obtain ⟨_, hD, _, hB, _⟩ := valStep_some_spec prev t t2 c hv
      have hkey : (pyStrip t2.Date, pyStrip t2.Balance) =
          (pyStrip t.Date, pyStrip t.Balance) := by
        rw [hD, hB, pyStrip_idem, pyStrip_idem]
      rw [hkey]
      exact (ih (some c)).cons₂ _

theorem valStep_stable (prev : Option PyDec) (t t2 : Transaction) (c : PyDec)
    (h : valStep prev t = some (t2, c)) : valStep prev t2 = some (t2, c) := by
  obtain ⟨hbal, hD, hDe, hB, hDne, hDene, hBne, hrest⟩ := valStep_some_spec prev t t2 c h
  obtain ⟨D2, De2, Db2, Cr2, B2⟩ := t2
  simp only [] at hD hDe hB hbal hrest
  have hD2 : pyStrip D2 = D2 := by rw [hD]; exact pyStrip_idem _
  have hDe2 : pyStrip De2 = De2 := by rw [hDe]; exact pyStrip_idem _
  have hB2 : pyStrip B2 = B2 := by rw [hB]; exact pyStrip_idem _
  have hD2ne : D2 ≠ "" := by rw [hD]; exact hDne
  have hDe2ne : De2 ≠ "" := by rw [hDe]; exact hDene
  have hB2ne : B2 ≠ "" := by rw [hB]; exact hBne
  have hbal2 : pyDecParse B2 = some c := by rw [hB]; exact hbal
  simp only [valStep, hD2, hDe2, hB2, hbal2]
  rw [if_neg (by simp [hD2ne, hDe2ne, hB2ne])]
  rcases hrest with ⟨hpnone, hDb, hCr⟩ | ⟨p, diff, hpsome, hsub, hbranch⟩
  · subst hpnone
    have hDb2 : pyStrip Db2 = Db2 := by rw [hDb]; exact pyStrip_idem _
    have hCr2 : pyStrip Cr2 = Cr2 := by rw [hCr]; exact pyStrip_idem _
    simp only [hDb2, hCr2]
  · subst hpsome
    simp only [hsub]
    rcases hbranch with ⟨hnotboth, hDb, hCr⟩ | ⟨hdbe, hcre, hsplit3⟩
    · have hDb2 : pyStrip Db2 = Db2 := by rw [hDb]; exact pyStrip_idem _
      have hCr2 : pyStrip Cr2 = Cr2 := by rw [hCr]; exact pyStrip_idem _
      rw [if_neg (by rw [hDb2, hCr2, hDb, hCr]; exact hnotboth)]
      simp only [hDb2, hCr2]
    · rcases hsplit3 with ⟨hcmp, hDb, hCr⟩ | ⟨hcmp, hCr, hDb⟩ | ⟨hcmp, hDb, hCr⟩
      · have hDb2 : pyStrip Db2 = Db2 := by rw [hDb]; exact pyStrip_decStr _
        have hCr2 : pyStrip Cr2 = Cr2 := by rw [hCr]; rfl
        rw [if_neg (by
          rw [hDb2, hDb]
          intro hcontra
          exact decStr_ne_empty _ hcontra.1)]
        simp only [hDb2, hCr2]
      · have hCr2 : pyStrip Cr2 = Cr2 := by rw [hCr]; exact pyStrip_decStr _
        have hDb2 : pyStrip Db2 = Db2 := by rw [hDb]; rfl
        rw [if_neg (by
          rw [hCr2, hCr]
          intro hcontra
          exact decStr_ne_empty _ hcontra.2)]
        simp only [hDb2, hCr2]
      · subst hDb
        subst hCr
        rw [if_pos (by exact ⟨rfl, rfl⟩)]
        simp only [hcmp]

theorem validateGo_stable (ts : List Transaction) :
    ∀ prev, validateGo prev (validateGo prev ts) = validateGo prev ts := by
  induction ts with
  | nil => intro prev; rfl
  | cons t ts ih =>
    intro prev
    cases hv : valStep prev t with
    | none =>
      rw [validateGo_cons_none prev t ts hv]
      exact ih prev
    | some tc =>
      obtain ⟨t2, c⟩ := tc
      rw [validateGo_cons_some prev t t2 c ts hv]
      rw [validateGo_cons_some prev t2 t2 c (validateGo (some c) ts)
        (valStep_stable prev t t2 c hv)]
      rw [ih (some c)]

theorem is_numeric_iff (p : String) :
    is_numeric p = true ↔
      (clean_amount p ≠ "" ∧ (pyDecParse (clean_amount p)).isSome = true) := by
  constructor
  · exact is_numeric_clean p
  · intro hpair
    show (if clean_amount p = "" then false
      else (pyDecParse (clean_amount p)).isSome) = true
    rw [if_neg hpair.1]
    exact hpair.2

theorem validateGo_exclusive (ts : List Transaction) :
    ∀ prev, (∀ t ∈ ts, pyStrip t.Debit = "" ∨ pyStrip t.Credit = "") →
      ∀ t2 ∈ validateGo prev ts, t2.Debit = "" ∨ t2.Credit = "" := by
  induction ts with
  | nil => intro prev _ t2 h2; simp [validateGo] at h2
  | cons t ts ih =>
    intro prev hall t2 h2
    cases hv : valStep prev t with
    | none =>
      rw [validateGo_cons_none _ _ _ hv] at h2
      exact ih prev (fun q hq => hall q (by simp [hq])) t2 h2
    | some tc =>
      obtain ⟨t3, c⟩ := tc
      rw [validateGo_cons_some _ _ _ _ _ hv] at h2
      rcases List.mem_cons.mp h2 with h3 | h4
      · subst h3
        obtain ⟨_, _, _, _, _, _, _, hrest⟩ := valStep_some_spec prev t t2 c hv
        have htone := hall t (by simp)
        rcases hrest with ⟨_, hDb, hCr⟩ | ⟨p, diff, _, _, hbranch⟩
        · rcases htone with h5 | h5
          · left; rw [hDb, h5]
          · right; rw [hCr, h5]
        · rcases hbranch with ⟨_, hDb, hCr⟩ | ⟨_, _, hsplit3⟩
          · rcases htone with h5 | h5
            · left; rw [hDb, h5]
            · right; rw [hCr, h5]
          · rcases hsplit3 with ⟨_, _, hCr⟩ | ⟨_, _, hDb⟩ | ⟨_, hDb, _⟩
            · right; exact hCr
            · left; exact hDb
            · left; exact hDb
      · exact ih (some c) (fun q hq => hall q (by simp [hq])) t2 h4

/-! Concrete inputs used by witnesses and counterexamples. -/

/-- Scenario line with a grouping comma in the balance token. -/
def lineA : String := "01.02.24 GROCERY STORE 45.00 1,000.00"

/-- Fields the tokenizer extracts from lineA. -/
def tdA : ParsedFields := ⟨"01.02.24", "GROCERY STORE", some "45.00", "1000.00"⟩

/-- A previous balance of 1045.00. -/
def prevA : PyDec := PyDec.finite false 104500 (-2)

/-- The balance 1000.00 of lineA. -/
def balA : PyDec := PyDec.finite false 100000 (-2)

/-- The amount 45.00 of lineA. -/
def amtA : PyDec := PyDec.finite false 4500 (-2)

/-- The record the parser emits for lineA when the previous balance is 1045.00. -/
def tA : Transaction := ⟨"01.02.24", "GROCERY STORE", "45.00", "", "1000.00"⟩

/-- A record with empty Debit and Credit and balance 1200.00. -/
def tC2 : Transaction := ⟨"02.02.24", "DEPOSIT", "", "", "1200.00"⟩

/-- The repaired record for tC2 after backfilling from a previous balance of 1000.00. -/
def tC2out : Transaction := ⟨"02.02.24", "DEPOSIT", "", "200.00", "1200.00"⟩

/-- The balance 1200.00. -/
def balC2 : PyDec := PyDec.finite false 120000 (-2)

/-- A previous balance of 1000.00. -/
def prevC2 : PyDec := PyDec.finite false 100000 (-2)

/-- A record with Debit populated and Credit empty. -/
def tC8 : Transaction := ⟨"01.02.24", "SHOP", "45.00", "", "1000.00"⟩

/-- Fields the tokenizer extracts from the line 01.01.24 x 5 10. -/
def tdN : ParsedFields := ⟨"01.01.24", "x", some "5", "10"⟩

/-- C3: the validator is idempotent on its own output: for every input list of
transactions, applying validate_transactions to the result of validate_transactions
returns the same list; no record of the first output is dropped by the second pass
and no field is changed. -/
theorem C3_validator_idempotent (ts : List Transaction) :
    validate_transactions (validate_transactions ts) = validate_transactions ts :=
  validateGo_stable ts none

/-- C6: the tokenizer rejects a raw line (returns none) exactly when the line has
fewer than 3 whitespace tokens, or its first token is not two digits, dot, two
digits, dot, two digits, or no token is numeric, i.e. nonempty and parsing as a
decimal after stripping commas, apostrophes and surrounding whitespace. -/
theorem C6_tokenizer_rejects_iff (line : String) :
    extract_transaction_data line = none ↔
      ((pySplit line).length < 3 ∨
       is_date ((pySplit line).getD 0 "") = false ∨
       ∀ p ∈ pySplit line,
         ¬(clean_amount p ≠ "" ∧ (pyDecParse (clean_amount p)).isSome = true)) := by
  constructor
  · intro h
    by_cases h3 : (pySplit line).length < 3
    · exact Or.inl h3
    · by_cases hd : is_date ((pySplit line).getD 0 "") = true
      · refine Or.inr (Or.inr ?_)
        intro p hp hnum
        have hpn : is_numeric p = true := (is_numeric_iff p).mpr hnum
        cases hb : balanceScan (pySplit line) with
        | none =>
          have hfalse := (balanceScan_none (pySplit line)).mp hb p hp
          rw [hpn] at hfalse
          cases hfalse
        | some bbi =>
          obtain ⟨b, bi⟩ := bbi
          obtain ⟨pre, q, suf, _, hq, hbc, _, _⟩ := balanceScan_some _ _ _ hb
          have hbne : b ≠ "" := by rw [hbc]; exact (is_numeric_clean q hq).1
          rw [extract_eq_of_scan line h3 hd b bi hb hbne] at h
          cases h
      · exact Or.inr (Or.inl (by simpa using hd))
  · intro h
    rcases h with h3 | hd | hnone
    · simp [extract_transaction_data, if_pos h3]
    · by_cases h3 : (pySplit line).length < 3
      · simp [extract_transaction_data, if_pos h3]
      · simp only [extract_transaction_data]
        rw [if_neg h3, hd]
        simp
    · by_cases h3 : (pySplit line).length < 3
      · simp [extract_transaction_data, if_pos h3]
      · have hbn : balanceScan (pySplit line) = none := by
          rw [balanceScan_none]
          intro q hq
          cases hqq : is_numeric q
          · rfl
          · exact absurd ((is_numeric_iff q).mp hqq) (hnone q hq)
        by_cases hd2 : is_date ((pySplit line).getD 0 "") = true
        · simp [extract_transaction_data, if_neg h3, hd2, hbn]
        · have hdf : is_date ((pySplit line).getD 0 "") = false := by simpa using hd2
          simp only [extract_transaction_data]
          rw [if_neg h3, hdf]
          simp

/-- C7: both stages preserve order: parse_pdf emits records following the document
order of the lines (pages in order, lines within pages in order, captured by the
flatten equation and the append homomorphisms), and each stage's output keys form
a sublist (order-preserving subsequence) of the input keys. -/
theorem C7_order_preservation :
    (∀ pages : List (List String), parse_pdf pages = parseLinesGo none pages.flatten) ∧
    (∀ (a b : List String) (prev : Option PyDec),
      parseLinesGo prev (a ++ b) =
        parseLinesGo prev a ++ parseLinesGo (lineStateAfter prev a) b) ∧
    (∀ (a b : List Transaction) (prev : Option PyDec),
      validateGo prev (a ++ b) =
        validateGo prev a ++ validateGo (valStateAfter prev a) b) ∧
    (∀ (ls : List String) (prev : Option PyDec),
      List.Sublist ((parseLinesGo prev ls).map Transaction.Date)
        (ls.map (fun l => (pySplit l).getD 0 ""))) ∧
    (∀ ts : List Transaction,
      List.Sublist ((validate_transactions ts).map
          (fun t => (pyStrip t.Date, pyStrip t.Balance)))
        (ts.map (fun t => (pyStrip t.Date, pyStrip t.Balance)))) :=
  ⟨fun pages => parsePagesGo_join pages none,
   fun a b prev => parseLinesGo_append a b prev,
   fun a b prev => validateGo_append a b prev,
   fun ls prev => parseLinesGo_dates_sublist ls prev,
   fun ts => validateGo_keys_sublist ts none⟩

/-- C1: for every line accepted by the parser, debit/credit classification happens
only when the previous balance is known and an amount was found: in that case a
balance strictly greater than the previous balance writes the amount into Credit
with Debit empty, and a balance lower than or equal to it writes the amount into
Debit with Credit empty; when the previous balance is unknown or the amount is
absent, both fields are empty in the emitted record. -/
theorem C1_parser_debit_credit (prev : Option PyDec) (line : String)
    (t : Transaction) (c : PyDec) (td : ParsedFields)
    (hstep : lineStep prev line = some (t, c))
    (hex : extract_transaction_data line = some td) :
    ((prev = none ∨ td.amount = none) → t.Debit = "" ∧ t.Credit = "") ∧
    (∀ p a av, prev = some p → td.amount = some a → pyDecParse a = some av →
      (decCompare c p = some .gt → t.Credit = decStr av ∧ t.Debit = "") ∧
      ((decCompare c p = some .lt ∨ decCompare c p = some .eq) →
        t.Debit = decStr av ∧ t.Credit = "")) := by
  obtain ⟨td', hex', _, _, _, _, hclass⟩ := lineStep_some_spec prev line t c hstep
  have htd : td' = td := by
    rw [hex'] at hex
    injection hex
  subst htd
  constructor
  · intro hpre
    rcases hclass with ⟨h1, h2, _⟩ | ⟨p, a, av, hp, ha, _, _⟩
    · exact ⟨h1, h2⟩
    · rcases hpre with h3 | h3
      · rw [h3] at hp; cases hp
      · rw [h3] at ha; cases ha
  · intro p a av hp ha hpav
    rcases hclass with ⟨_, _, h3⟩ | ⟨p2, a2, av2, hp2, ha2, hpa2, hbr⟩
    · rcases h3 with h4 | h4 | h4
      · rw [hp] at h4; cases h4
      · rw [ha] at h4; cases h4
      · rw [ha] at h4
        injection h4 with h5
        subst h5
        exact absurd hpav (by intro hcontra; cases hcontra)
    · rw [hp] at hp2
      injection hp2 with hpp
      subst hpp
      rw [ha] at ha2
      injection ha2 with haa
      subst haa
      rw [hpav] at hpa2
      injection hpa2 with havv
      subst havv
      rcases hbr with ⟨hcmp, hcr, hdb⟩ | ⟨hcmp, hdb, hcr⟩
      · constructor
        · intro _
          exact ⟨hcr, hdb⟩
        · intro hor
          rcases hor with h5 | h5 <;>
            (rw [hcmp] at h5; injection h5 with h6; cases h6)
      · constructor
        · intro hgt
          rcases hcmp with h5 | h5 <;>
            (rw [h5] at hgt; injection hgt with h6; cases h6)
        · intro _
          exact ⟨hdb, hcr⟩

/-- Witness for C1: Scenario A of the specification, the line lineA with previous
balance 1045.00 yields Debit 45.00 and empty Credit since 1000.00 is lower. -/
theorem C1_parser_debit_credit_witness :
    lineStep (some prevA) lineA = some (tA, balA) ∧
    extract_transaction_data lineA = some tdA ∧
    decCompare balA prevA = some Ordering.lt ∧
    tA.Debit = decStr amtA ∧ tA.Credit = "" := by
  have happ := (C1_parser_debit_credit (some prevA) lineA tA balA tdA
    (by decide) (by decide)).2 prevA "45.00" amtA rfl (by decide) (by decide)
  exact ⟨by decide, by decide, by decide,
    (happ.2 (Or.inl (by decide))).1, (happ.2 (Or.inl (by decide))).2⟩

/-- C2: in the validator, for a kept record with known previous balance and both
Debit and Credit empty after stripping, the absolute balance difference is written
into Debit when the balance decreased, into Credit when it increased, and neither
when equal; the previous balance becomes the parsed Balance of every kept record
(including the first) and is unchanged on dropped records. -/
theorem C2_validator_backfill :
    (∀ (p : PyDec) (t t2 : Transaction) (c : PyDec),
      valStep (some p) t = some (t2, c) →
      pyStrip t.Debit = "" → pyStrip t.Credit = "" →
      pyDecParse (pyStrip t.Balance) = some c ∧
      ∃ diff, decSub c p = some diff ∧
        ((decCompare c p = some .lt ∧ t2.Debit = decStr (decAbs diff) ∧
            t2.Credit = "") ∨
         (decCompare c p = some .gt ∧ t2.Credit = decStr (decAbs diff) ∧
            t2.Debit = "") ∨
         (decCompare c p = some .eq ∧ t2.Debit = "" ∧ t2.Credit = ""))) ∧
    (∀ (prev : Option PyDec) (t : Transaction) (ts : List Transaction),
      (valStep prev t = none → validateGo prev (t :: ts) = validateGo prev ts) ∧
      (∀ t2 c, valStep prev t = some (t2, c) →
        validateGo prev (t :: ts) = t2 :: validateGo (some c) ts ∧
        pyDecParse (pyStrip t.Balance) = some c)) := by
  constructor
  · intro p t t2 c h hdb hcr
    obtain ⟨hbal, _, _, _, _, _, _, hrest⟩ := valStep_some_spec (some p) t t2 c h
    refine ⟨hbal, ?_⟩
    rcases hrest with ⟨hpn, _, _⟩ | ⟨p2, diff, hp2, hsub, hbranch⟩
    · cases hpn
    · injection hp2 with hpp
      subst hpp
      refine ⟨diff, hsub, ?_⟩
      rcases hbranch with ⟨hnotboth, _, _⟩ | ⟨_, _, hsplit3⟩
      · exact absurd ⟨hdb, hcr⟩ hnotboth
      · exact hsplit3
  · intro prev t ts
    constructor
    · intro h
      exact validateGo_cons_none prev t ts h
    · intro t2 c h
      exact ⟨validateGo_cons_some prev t t2 c ts h,
        (valStep_some_spec prev t t2 c h).1⟩

/-- Witness for C2: Scenario C of the specification, a record with balance 1200.00,
both fields empty, and previous balance 1000.00 gets Credit 200.00 backfilled. -/
theorem C2_validator_backfill_witness :
    valStep (some prevC2) tC2 = some (tC2out, balC2) ∧
    pyDecParse (pyStrip tC2.Balance) = some balC2 ∧
    ∃ diff, decSub balC2 prevC2 = some diff ∧
      ((decCompare balC2 prevC2 = some .lt ∧ tC2out.Debit = decStr (decAbs diff) ∧
          tC2out.Credit = "") ∨
       (decCompare balC2 prevC2 = some .gt ∧ tC2out.Credit = decStr (decAbs diff) ∧
          tC2out.Debit = "") ∨
       (decCompare balC2 prevC2 = some .eq ∧ tC2out.Debit = "" ∧
          tC2out.Credit = "")) := by
  have happ := C2_validator_backfill.1 prevC2 tC2 tC2out balC2
    (by decide) (by decide) (by decide)
  exact ⟨by decide, happ.1, happ.2⟩

/-- C8: in the validator, a kept record with known previous balance and exactly one
of Debit/Credit populated keeps both fields as their stripped input values: no
cross-check against the balance delta rewrites them; when the input fields carry
no surrounding whitespace they are literally untouched. -/
theorem C8_populated_fields_untouched (p : PyDec) (t t2 : Transaction)
    (c : PyDec) (h : valStep (some p) t = some (t2, c))
    (hone : (pyStrip t.Debit ≠ "" ∧ pyStrip t.Credit = "") ∨
            (pyStrip t.Debit = "" ∧ pyStrip t.Credit ≠ "")) :
    t2.Debit = pyStrip t.Debit ∧ t2.Credit = pyStrip t.Credit ∧
    (t.Debit = pyStrip t.Debit → t.Credit = pyStrip t.Credit →
      t2.Debit = t.Debit ∧ t2.Credit = t.Credit) := by
  obtain ⟨_, _, _, _, _, _, _, hrest⟩ := valStep_some_spec (some p) t t2 c h
  rcases hrest with ⟨hpn, _, _⟩ | ⟨p2, diff, _, _, hbranch⟩
  · cases hpn
  · rcases hbranch with ⟨_, hDb, hCr⟩ | ⟨hdbe, hcre, _⟩
    · exact ⟨hDb, hCr, fun h1 h2 => ⟨by rw [hDb, ← h1], by rw [hCr, ← h2]⟩⟩
    · rcases hone with ⟨hne, _⟩ | ⟨_, hne⟩
      · exact absurd hdbe hne
      · exact absurd hcre hne

/-- Witness for C8: a record with Debit 45.00 and empty Credit is kept unchanged,
even though the stated amount does not match the balance delta 45.00 vs 4500.00. -/
theorem C8_populated_fields_untouched_witness :
    valStep (some prevA) tC8 = some (tC8, balA) ∧
    tC8.Debit = pyStrip tC8.Debit ∧ tC8.Credit = pyStrip tC8.Credit ∧
    tC8.Debit = tC8.Debit ∧ tC8.Credit = tC8.Credit := by
  have happ := C8_populated_fields_untouched prevA tC8 tC8 balA
    (by decide) (Or.inl (by decide))
  refine ⟨by decide, happ.1.symm ▸ rfl, happ.2.1.symm ▸ rfl, ?_⟩
  exact happ.2.2 (happ.1.symm ▸ rfl) (happ.2.1.symm ▸ rfl)

/-- C5: at most one of Debit and Credit is a nonempty string: every record emitted
by the parser has Debit or Credit empty, and the validator preserves the
invariant: when every input record has at most one nonempty field, so does every
record of its output; both fields may be empty. -/
theorem C5_at_most_one_of_debit_credit :
    (∀ (prev : Option PyDec) (line : String) (t : Transaction) (c : PyDec),
      lineStep prev line = some (t, c) → t.Debit = "" ∨ t.Credit = "") ∧
    (∀ ts : List Transaction, (∀ t ∈ ts, t.Debit = "" ∨ t.Credit = "") →
      ∀ t2 ∈ validate_transactions ts, t2.Debit = "" ∨ t2.Credit = "") := by
  constructor
  · intro prev line t c h
    obtain ⟨td, _, _, _, _, _, hclass⟩ := lineStep_some_spec prev line t c h
    rcases hclass with ⟨h1, _, _⟩ | ⟨p, a, av, _, _, _, hbr⟩
    · exact Or.inl h1
    · rcases hbr with ⟨_, _, hdb⟩ | ⟨_, _, hcr⟩
      · exact Or.inl hdb
      · exact Or.inr hcr
  · intro ts hall t2 h2
    refine validateGo_exclusive ts none ?_ t2 h2
    intro t ht
    rcases hall t ht with h3 | h3
    · left
      rw [h3]
      rfl
    · right
      rw [h3]
      rfl

/-- Witness for C5: the Scenario A record and a singleton validator input. -/
theorem C5_at_most_one_of_debit_credit_witness :
    (tA.Debit = "" ∨ tA.Credit = "") ∧
    (∀ t2 ∈ validate_transactions [tC2], t2.Debit = "" ∨ t2.Credit = "") := by
  constructor
  · exact C5_at_most_one_of_debit_credit.1 (some prevA) lineA tA balA (by decide)
  · exact C5_at_most_one_of_debit_credit.2 [tC2] (by decide)

/-- C4 counterexample: on the Scenario A line the stored balance is the cleaned
string 1000.00, while the line's rightmost numeric token reads 1,000.00: the
Balance is not one of the whitespace-separated tokens of the line. -/
theorem C4_counterexample :
    extract_transaction_data lineA = some tdA ∧
    tdA.balance = "1000.00" ∧ "1000.00" ∉ pySplit lineA := by decide

/-- C4 amended: the stored balance is clean_amount of the rightmost token accepted
by the lenient numeric check (every token to its right is non-numeric); it equals
that token itself exactly when the token carries no comma and no apostrophe, and
the Balance of any record the parser emits for the line equals this stored
balance. -/
theorem C4_balance_from_rightmost_numeric_token (line : String) (td : ParsedFields)
    (h : extract_transaction_data line = some td) :
    ∃ pre tok suf, pySplit line = pre ++ tok :: suf ∧ is_numeric tok = true ∧
      (∀ q ∈ suf, is_numeric q = false) ∧ td.balance = clean_amount tok ∧
      ((∀ ch ∈ tok.data, ch ≠ ',' ∧ ch ≠ aposChar) → td.balance = tok) ∧
      (∀ prev t c, lineStep prev line = some (t, c) → t.Balance = td.balance) := by
  obtain ⟨bi, _, _, hscan, _, _, _⟩ := extract_some_parts line td h
  obtain ⟨pre, tok, suf, hsplit, htok, hbc, hsuf, _⟩ := balanceScan_some _ _ _ hscan
  refine ⟨pre, tok, suf, hsplit, htok, hsuf, hbc, ?_, ?_⟩
  · intro hca
    rw [hbc]
    refine clean_amount_eq_self tok ?_ hca
    intro ch hch
    refine pySplit_no_space line tok ?_ ch hch
    rw [hsplit]
    exact List.mem_append_right _ (by simp)
  · intro prev t c hstep
    obtain ⟨td2, hex2, _, _, _, hBal, _⟩ := lineStep_some_spec prev line t c hstep
    rw [h] at hex2
    injection hex2 with htd
    rw [hBal, ← htd]

/-- Witness for C4 amended at the Scenario A line. -/
theorem C4_balance_from_rightmost_numeric_token_witness :
    extract_transaction_data lineA = some tdA ∧
    ∃ pre tok suf, pySplit lineA = pre ++ tok :: suf ∧ is_numeric tok = true ∧
      (∀ q ∈ suf, is_numeric q = false) ∧ tdA.balance = clean_amount tok ∧
      ((∀ ch ∈ tok.data, ch ≠ ',' ∧ ch ≠ aposChar) → tdA.balance = tok) ∧
      (∀ prev t c, lineStep prev lineA = some (t, c) → t.Balance = tdA.balance) :=
  ⟨by decide, C4_balance_from_rightmost_numeric_token lineA tdA (by decide)⟩

/-- C9 counterexample: the token NaN passes the lenient numeric check, the first
line is emitted with Balance NaN, and the second line, tokenizer-accepted with
cleanly parsing fields, is skipped by the catch branch because the order
comparison against the NaN previous balance raises InvalidOperation: the catch
branch is reachable for tokenizer-accepted fields. -/
theorem C9_counterexample :
    (extract_transaction_data "01.01.24 x 5 10").isSome = true ∧
    lineStep (some (PyDec.nan false false 0)) "01.01.24 x 5 10" = none ∧
    parse_pdf [["01.01.24 a b NaN", "01.01.24 x 5 10"]] =
      [⟨"01.01.24", "a b", "", "", "NaN"⟩] := by decide

/-- C9 amended: for every tokenizer-accepted line the stored balance string, and
the amount string when present, construct a Decimal without raising, so the catch
branch is unreachable through numeric parse failure; the only way an accepted
line is skipped is a NaN order comparison: previous balance known, amount present,
and the parsed balance or the previous balance a NaN. -/
theorem C9_accepted_fields_parse (line : String) (td : ParsedFields)
    (hex : extract_transaction_data line = some td) :
    (pyDecParse td.balance).isSome = true ∧
    (∀ a, td.amount = some a → a ≠ "" ∧ (pyDecParse a).isSome = true) ∧
    (∀ prev, lineStep prev line = none →
      ∃ p a av cur, prev = some p ∧ td.amount = some a ∧ pyDecParse a = some av ∧
        pyDecParse td.balance = some cur ∧ decCompare cur p = none ∧
        (isNan cur = true ∨ isNan p = true)) := by
  refine ⟨extract_balance_parses line td hex,
    fun a ha => extract_amount_parses line td a hex ha, ?_⟩
  intro prev hnone
  obtain ⟨p, a, av, cur, h1, h2, h3, h4, h5⟩ := lineStep_none_spec prev line td hex hnone
  refine ⟨p, a, av, cur, h1, h2, h3, h4, h5, ?_⟩
  cases cur <;> cases p <;> simp [decCompare, isNan] at h5 ⊢

/-- Witness for C9 amended: the accepted line 01.01.24 x 5 10 with a NaN previous
balance is skipped by the comparison while all its stored fields parse. -/
theorem C9_accepted_fields_parse_witness :
    extract_transaction_data "01.01.24 x 5 10" = some tdN ∧
    (pyDecParse tdN.balance).isSome = true ∧
    (∃ p a av cur, (some (PyDec.nan false false 0) : Option PyDec) = some p ∧
      tdN.amount = some a ∧ pyDecParse a = some av ∧
      pyDecParse tdN.balance = some cur ∧ decCompare cur p = none ∧
      (isNan cur = true ∨ isNan p = true)) := by
  have happ := C9_accepted_fields_parse "01.01.24 x 5 10" tdN (by decide)
  exact ⟨by decide, happ.1,
    happ.2.2 (some (PyDec.nan false false 0)) (by decide)⟩

/-- C10: a line whose only numeric token immediately follows the date (balance at
index 1) is still accepted by the tokenizer with an absent amount and an empty
description; the parser emits, for any previous balance, a record whose
Description is empty, and the validator drops any such record. -/
theorem C10_balance_adjacent_to_date (line : String) (d p : String)
    (rest : List String) (hsplit : pySplit line = d :: p :: rest) (hrest : rest ≠ [])
    (hd : is_date d = true) (hp : is_numeric p = true)
    (hothers : ∀ q ∈ d :: rest, is_numeric q = false) :
    extract_transaction_data line = some ⟨d, "", none, clean_amount p⟩ ∧
    (∀ prev, ∃ c, lineStep prev line =
      some (⟨d, "", "", "", clean_amount p⟩, c)) ∧
    (∀ wprev ts, validateGo wprev
        ((⟨d, "", "", "", clean_amount p⟩ : Transaction) :: ts) =
      validateGo wprev ts) := by
  have hscan : balanceScan (pySplit line) = some (clean_amount p, 1) := by
    rw [hsplit]
    have hs := balanceScan_eq_some [d] rest p hp
      (fun q hq => hothers q (by simp [hq]))
    simpa using hs
  have h3 : ¬ (pySplit line).length < 3 := by
    rw [hsplit]
    cases rest with
    | nil => exact absurd rfl hrest
    | cons r rs => simp
  have hd0 : is_date ((pySplit line).getD 0 "") = true := by
    rw [hsplit]
    exact hd
  have hbne : clean_amount p ≠ "" := (is_numeric_clean p hp).1
  have hex := extract_eq_of_scan line h3 hd0 (clean_amount p) 1 hscan hbne
  rw [hsplit] at hex
  have hexS : extract_transaction_data line = some ⟨d, "", none, clean_amount p⟩ :=
    hex
  refine ⟨hexS, ?_, ?_⟩
  · intro prev
    cases hpp : pyDecParse (clean_amount p) with
    | none =>
      have hps := (is_numeric_clean p hp).2
      rw [hpp] at hps
      cases hps
    | some cur =>
      exact ⟨cur, lineStep_of_amount_none prev line ⟨d, "", none, clean_amount p⟩
        hexS rfl cur hpp⟩
  · intro wprev ts
    refine validateGo_cons_none wprev _ ts ?_
    show (if pyStrip d = "" ∨ pyStrip "" = "" ∨ pyStrip (clean_amount p) = ""
      then none else _) = none
    rw [if_pos (show pyStrip d = "" ∨ pyStrip "" = "" ∨ pyStrip (clean_amount p) = ""
      from Or.inr (Or.inl rfl))]

/-- Witness for C10: the line 01.01.24 5.00 x has its only numeric token right
after the date; it is accepted with empty description and the record is dropped by
the validator. -/
theorem C10_balance_adjacent_to_date_witness :
    extract_transaction_data "01.01.24 5.00 x" = some ⟨"01.01.24", "", none, "5.00"⟩ ∧
    (∃ c, lineStep none "01.01.24 5.00 x" =
      some (⟨"01.01.24", "", "", "", "5.00"⟩, c)) ∧
    validateGo none [(⟨"01.01.24", "", "", "", "5.00"⟩ : Transaction)] =
      validateGo none [] := by
  have happ := C10_balance_adjacent_to_date "01.01.24 5.00 x" "01.01.24" "5.00" ["x"]
    (by decide) (by decide) (by decide) (by decide) (by decide)
  refine ⟨?_, happ.2.1 none, happ.2.2 none []⟩
  have h1 := happ.1
  have h2 : clean_amount "5.00" = "5.00" := by decide
  rw [h2] at h1
  exact h1
